import Mathlib

/-!
# Verification of the pdf2text repository

Shallow embedding of the two source files `pdf2text.py` and `text2pdf.py`.

Python strings are modelled as Lean `String` / `List Char`.  Each `re.sub`
call is modelled by a left-to-right, non-overlapping scan (`subPassGo`): at
every position of the original string the pattern is tried; on a match the
matched span is replaced and scanning resumes after the span, with the
*original* characters kept as left context (so `^` and `\b` see the original
string, as in Python's `re`).  Every pattern used by the repository matches
at least one character, so the scan always advances.

The Unicode library calls (`unicodedata.normalize("NFKC", ·)`, `str.strip`,
`str.isdigit`, the `\s`/`\w`/`\d` classes) are modelled by explicit character
tables restricted to the character ranges this repository manipulates
(ASCII, the CJK blocks of the allow-lists, the full-width block); on every
character outside those tables the models are the identity / `false`, which
agrees with CPython on all inputs used below.  Python float thresholds are
modelled as exact rationals (`0.7` as `7/10`); for the occurrence counts and
page totals reachable here the float and rational comparisons agree.
-/

/-- Python's whitespace class (`\s` in `re`, `str.strip`, `str.isspace`)
for the characters this repository can encounter. -/
def isPySpace (c : Char) : Bool :=
  c = ' ' || c = '\t' || c = '\n' || c = '\r' || c = '\x0b' || c = '\x0c' ||
  c = '\x1c' || c = '\x1d' || c = '\x1e' || c = '\x1f' || c = '\x85' ||
  c = ' ' || c = ' ' || (' ' ≤ c && c ≤ ' ') ||
  c = ' ' || c = ' ' || c = ' ' || c = ' ' || c = '　'

/-- Hiragana block `぀-ゟ`. -/
def isHiragana (c : Char) : Bool := '぀' ≤ c && c ≤ 'ゟ'

/-- Katakana block `゠-ヿ`. -/
def isKatakana (c : Char) : Bool := '゠' ≤ c && c ≤ 'ヿ'

/-- Kanji block `一-鿿`. -/
def isKanji (c : Char) : Bool := '一' ≤ c && c ≤ '鿿'

/-- The CJK class `[぀-ゟ゠-ヿ一-鿿]` used by the
hyphenation and CJK-spacing regexes. -/
def isCJK (c : Char) : Bool := isHiragana c || isKatakana c || isKanji c

/-- Python's word-character class `\w`, restricted to ASCII plus the Unicode
ranges this repository manipulates (kana, kanji, full-width alphanumerics). -/
def isWordChar (c : Char) : Bool :=
  c.isAlphanum || c = '_' || isCJK c ||
  ('０' ≤ c && c ≤ '９') || ('Ａ' ≤ c && c ≤ 'Ｚ') ||
  ('ａ' ≤ c && c ≤ 'ｚ')

/-- Python's digit class `\d`, restricted to ASCII and full-width digits. -/
def isReDigit (c : Char) : Bool :=
  c.isDigit || ('０' ≤ c && c ≤ '９')

/-- `str.isdigit` on a single character, restricted to ASCII digits,
full-width digits and the common superscript digits. -/
def isPyDigitChar (c : Char) : Bool :=
  c.isDigit || ('０' ≤ c && c ≤ '９') ||
  c = '¹' || c = '²' || c = '³' ||
  ('⁰' ≤ c && c ≤ '⁹') || ('₀' ≤ c && c ≤ '₉')

/-- `str.isdigit`: non-empty and every character a digit. -/
def pyIsDigit (s : String) : Bool :=
  s ≠ "" && s.data.all isPyDigitChar

/-- Remove trailing characters satisfying `isPySpace` (structural helper for
`str.strip`). -/
def dropTrailingSpaces : List Char → List Char
  | [] => []
  | c :: r =>
    match dropTrailingSpaces r with
    | [] => if isPySpace c then [] else [c]
    | d :: r' => c :: d :: r'

/-- `str.strip()` on a character list. -/
def pyStripList (l : List Char) : List Char :=
  dropTrailingSpaces (l.dropWhile isPySpace)

/-- `str.strip()`. -/
def pyStrip (s : String) : String := ⟨pyStripList s.data⟩

/-- `str.isspace()`: non-empty and all whitespace. -/
def pyIsSpaceStr (s : String) : Bool := s ≠ "" && s.data.all isPySpace

/-- UTF-8 byte length, `len(s.encode("utf-8"))` in Python. -/
def byteLen (s : String) : Nat := (s.data.map Char.utf8Size).sum

/-!
## The `re.sub` scanner

`subPassGo tryM fuel rev l` scans `l` left to right.  `tryM rev rest`
receives the already-consumed original characters in reverse (`rev`, the
left context for `^` and `\b`) and the remaining characters `rest`; it
returns `some (n, rep)` when the pattern matches the first `n ≥ 1`
characters of `rest` with replacement `rep`.  The fuel argument makes the
recursion structural; one unit is spent per scan step and every step
consumes at least one character, so `fuel = l.length` never runs out.
-/

def subPassGo (tryM : List Char → List Char → Option (Nat × List Char)) :
    Nat → List Char → List Char → List Char
  | 0, _, l => l
  | _ + 1, _, [] => []
  | fuel + 1, rev, c :: rest =>
    match tryM rev (c :: rest) with
    | some (n + 1, rep) =>
        rep ++ subPassGo tryM fuel (((c :: rest).take (n + 1)).reverse ++ rev) (rest.drop n)
    | _ => c :: subPassGo tryM fuel (c :: rev) rest

/-- One full `re.sub` pass over `l`. -/
def subPass (tryM : List Char → List Char → Option (Nat × List Char))
    (l : List Char) : List Char :=
  subPassGo tryM l.length [] l

/-- `re.sub(r"\s+", " ", ·)` as a single-pattern matcher. -/
def tryWsRun (_rev rest : List Char) : Option (Nat × List Char) :=
  match rest with
  | c :: _ => if isPySpace c then some ((rest.takeWhile isPySpace).length, [' ']) else none
  | [] => none

/-- `re.sub(r"\s+([class])", r"\1", ·)`: whitespace run followed by a
character of class `p` collapses to that character. -/
def trySpaceBefore (p : Char → Bool) (_rev rest : List Char) :
    Option (Nat × List Char) :=
  let sp := rest.takeWhile isPySpace
  if sp = [] then none else
  match rest.drop sp.length with
  | c :: _ => if p c then some (sp.length + 1, [c]) else none
  | [] => none

/-- `re.sub(r"(\w)\s+(\w)", r"\1\2", ·)`: two word characters separated by
whitespace are joined; the second character is consumed by the match. -/
def tryJoinWords (_rev rest : List Char) : Option (Nat × List Char) :=
  match rest with
  | c :: r =>
    if isWordChar c then
      let sp := r.takeWhile isPySpace
      if sp = [] then none else
      match r.drop sp.length with
      | d :: _ => if isWordChar d then some (1 + sp.length + 1, [c, d]) else none
      | [] => none
    else none
  | [] => none

/-!
## `text2pdf.py`
-/

/-- The allowed-character class of `text2pdf.clean_text`
(`[^a-zA-Z0-9぀-ゟ゠-ヿ一-鿿　-〿\s\.\,\!\?\:\;\'\"\(\)\[\]\{\}]`
is deleted, i.e. exactly these characters are kept). -/
def allowedT2P (c : Char) : Bool :=
  c.isAlphanum || isCJK c || ('　' ≤ c && c ≤ '〿') || isPySpace c ||
  c = '.' || c = ',' || c = '!' || c = '?' || c = ':' || c = ';' ||
  c = '\x27' || c = '\x22' || c = '(' || c = ')' || c = '[' || c = ']' ||
  c = '\x7b' || c = '\x7d'

/-- Model of `unicodedata.normalize("NFKC", ·)` restricted to the
character-wise compatibility mappings relevant to this repository: the
full-width ASCII block `！-～` folds to ASCII and the ideographic
space `　` folds to a space; identity elsewhere. -/
def nfkcChar (c : Char) : Char :=
  if '！' ≤ c && c ≤ '～' then Char.ofNat (c.toNat - 0xFEE0)
  else if c = '　' then ' ' else c

/-- `text2pdf.clean_text`: allowed-character deletion, whitespace collapse +
strip, space-before-punctuation removal, word-joining, then NFKC. -/
def clean_text (text : String) : String :=
  let s1 := text.data.filter allowedT2P
  let s2 := pyStripList (subPass tryWsRun s1)
  let s3 := subPass (trySpaceBefore (fun c => !isWordChar c && !isPySpace c)) s2
  let s4 := subPass tryJoinWords s3
  ⟨s4.map nfkcChar⟩

/-- Sentence-final delimiters `。！？` of `re.split(r"(?<=[。！？])", ·)`. -/
def sentenceDelim (c : Char) : Bool := c = '。' || c = '！' || c = '？'

/-- `re.split(r"(?<=[。！？])", page)`: split immediately after each
delimiter, keeping the delimiter with the preceding piece; a trailing
delimiter yields a final empty piece, as in Python. -/
def splitAfterDelims : List Char → List (List Char)
  | [] => [[]]
  | c :: rest =>
    let ps := splitAfterDelims rest
    if sentenceDelim c then [c] :: ps
    else
      match ps with
      | p :: ps' => (c :: p) :: ps'
      | [] => [[c]]

/-- The loop body of `split_text_into_chunks` for one raw sentence:
skip empty raw sentences; otherwise cleanse and either append to the
current chunk or flush it (unconditionally) and start a new chunk. -/
def chunkSentenceStep (max_size : Nat) (acc : List String × String)
    (sentence : List Char) : List String × String :=
  if sentence ≠ [] then
    let cleaned_sentence := clean_text ⟨sentence⟩
    if byteLen acc.2 + byteLen cleaned_sentence ≤ max_size then
      (acc.1, acc.2 ++ cleaned_sentence)
    else (acc.1 ++ [acc.2], cleaned_sentence)
  else acc

/-- `text2pdf.split_text_into_chunks`. -/
def split_text_into_chunks (pages : List String) (max_size : Nat) : List String :=
  let final := pages.foldl
    (fun acc page => (splitAfterDelims page.data).foldl (chunkSentenceStep max_size) acc)
    ([], "")
  if final.2 ≠ "" then final.1 ++ [final.2] else final.1

/-- The cleansed sentence stream in document order: every page is split into
sentences, empty raw sentences are dropped, the rest are cleansed. -/
def cleansedSentences (pages : List String) : List String :=
  (pages.map (fun page =>
    ((splitAfterDelims page.data).filter (· ≠ [])).map (fun s => clean_text ⟨s⟩))).flatten

/-- One step of the greedy packer as the spec describes it (amended: the
flush on a non-fitting sentence is unconditional, even for an empty buffer). -/
def greedyStep (max_size : Nat) (acc : List String × String) (s : String) :
    List String × String :=
  if byteLen acc.2 + byteLen s ≤ max_size then (acc.1, acc.2 ++ s)
  else (acc.1 ++ [acc.2], s)

/-- The greedy packer over an explicit cleansed-sentence stream, following
the spec's buffer description (with the amended unconditional flush). -/
def packGreedy (sentences : List String) (max_size : Nat) : List String :=
  let final := sentences.foldl (greedyStep max_size) ([], "")
  if final.2 ≠ "" then final.1 ++ [final.2] else final.1


/-!
## Claims C1 and C2: the chunk packer
-/

theorem byteLen_append (a b : String) : byteLen (a ++ b) = byteLen a + byteLen b := by
  simp [byteLen, String.data_append]

/-- A non-empty raw sentence is packed exactly like its cleansed form; an
empty raw sentence is skipped. -/
theorem chunkSentenceStep_eq (m : Nat) (acc : List String × String) (s : List Char) :
    chunkSentenceStep m acc s =
      if s ≠ [] then greedyStep m acc (clean_text ⟨s⟩) else acc := by
  by_cases h : s = [] <;> simp [chunkSentenceStep, greedyStep, h]

theorem fold_sentences_eq (m : Nat) (ss : List (List Char)) (acc : List String × String) :
    ss.foldl (chunkSentenceStep m) acc =
      ((ss.filter (· ≠ [])).map (fun s => clean_text ⟨s⟩)).foldl (greedyStep m) acc := by
  induction ss generalizing acc with
  | nil => rfl
  | cons s ss ih =>
    by_cases h : s = [] <;>
      simp [h, chunkSentenceStep_eq, ih]

theorem fold_pages_eq (m : Nat) (pages : List String) (acc : List String × String) :
    pages.foldl
        (fun acc page => (splitAfterDelims page.data).foldl (chunkSentenceStep m) acc) acc =
      (cleansedSentences pages).foldl (greedyStep m) acc := by
  induction pages generalizing acc with
  | nil => rfl
  | cons p ps ih =>
    rw [List.foldl_cons, ih, fold_sentences_eq]
    simp [cleansedSentences, List.foldl_append]

/-- The code's chunk packer equals the greedy packer over the cleansed
sentence stream (with the unconditional flush). -/
theorem split_eq_packGreedy (pages : List String) (m : Nat) :
    split_text_into_chunks pages m = packGreedy (cleansedSentences pages) m := by
  simp [split_text_into_chunks, packGreedy, fold_pages_eq]

/-- Invariant of the greedy fold: every flushed chunk, and the running
buffer, is either within budget or a single oversized cleansed sentence. -/
theorem packGreedy_fold_invariant (m : Nat) (S : List String) :
    ∀ (T : List String), (∀ s ∈ T, s ∈ S) →
      ∀ (acc : List String × String),
        (∀ c ∈ acc.1, byteLen c ≤ m ∨ (m < byteLen c ∧ c ∈ S)) →
        (byteLen acc.2 ≤ m ∨ (m < byteLen acc.2 ∧ acc.2 ∈ S)) →
        (∀ c ∈ (T.foldl (greedyStep m) acc).1, byteLen c ≤ m ∨ (m < byteLen c ∧ c ∈ S)) ∧
        (byteLen (T.foldl (greedyStep m) acc).2 ≤ m ∨
          (m < byteLen (T.foldl (greedyStep m) acc).2 ∧ (T.foldl (greedyStep m) acc).2 ∈ S)) := by
  intro T
  induction T with
  | nil => intro _ acc h1 h2; exact ⟨h1, h2⟩
  | cons s T ih =>
    intro hT acc h1 h2
    have hsS : s ∈ S := hT s (by simp)
    have hT' : ∀ t ∈ T, t ∈ S := fun t ht => hT t (by simp [ht])
    by_cases hfit : byteLen acc.2 + byteLen s ≤ m
    · have hg : greedyStep m acc s = (acc.1, acc.2 ++ s) := by
        simp [greedyStep, hfit]
      rw [List.foldl_cons, hg]
      exact ih hT' _ h1 (Or.inl (by simpa [byteLen_append] using hfit))
    · have hg : greedyStep m acc s = (acc.1 ++ [acc.2], s) := by
        simp [greedyStep, hfit]
      rw [List.foldl_cons, hg]
      refine ih hT' _ ?_ ?_
      · intro c hc
        rcases List.mem_append.1 hc with h | h
        · exact h1 c h
        · simp only [List.mem_singleton] at h
          subst h
          exact h2
      · rcases le_or_lt (byteLen s) m with h | h
        · exact Or.inl h
        · exact Or.inr ⟨h, hsS⟩


/-- C1 counterexample: the claim says a non-fitting sentence flushes the
buffer "only if it is non-empty" and that "no emitted chunk is the empty
string"; but with `max_size = 1` and the single raw sentence `"ab"` (whose
cleansed form has byte length 2 > 1) the code appends the still-empty
buffer to the output, so the first emitted chunk is the empty string. -/
theorem chunk_packer_empty_chunk_cex :
    split_text_into_chunks ["ab"] 1 = ["", "ab"] ∧
      "" ∈ split_text_into_chunks ["ab"] 1 := by
  decide

/-- C1 (amended): the chunk packer processes the cleansed sentences in
document order with a current-chunk buffer; a sentence is appended when the
byte length of buffer plus sentence is at most `max_size`, otherwise the
buffer is flushed to the output *unconditionally* — even when it is empty,
which happens exactly when a cleansed sentence alone exceeds the budget
while the buffer is empty — and a new chunk is started containing just that
sentence; after the last sentence a non-empty remaining buffer is flushed.
Stated as: the code equals the greedy packer `packGreedy` over the cleansed
sentence stream. -/
theorem chunk_packer_follows_greedy_buffer (pages : List String) (max_size : Nat) :
    split_text_into_chunks pages max_size =
      packGreedy (cleansedSentences pages) max_size :=
  split_eq_packGreedy pages max_size

/-- C2: for every sequence of pages and positive `max_size`, every chunk
produced by the packer has UTF-8 byte length at most `max_size`, except
possibly a chunk that is a single cleansed sentence whose own byte length
already exceeds `max_size` (never subdivided). -/
theorem chunk_size_invariant (pages : List String) (max_size : Nat)
    (hpos : 0 < max_size) :
    ∀ c ∈ split_text_into_chunks pages max_size,
      byteLen c ≤ max_size ∨
        (max_size < byteLen c ∧ c ∈ cleansedSentences pages) := by
  intro c hc
  rw [split_eq_packGreedy] at hc
  have hinv := packGreedy_fold_invariant max_size (cleansedSentences pages)
    (cleansedSentences pages) (fun _ hs => hs) ([], "")
    (by intro x hx; simp at hx)
    (Or.inl (by show byteLen "" ≤ max_size
                have h0 : byteLen "" = 0 := by decide
                omega))
  rcases hinv with ⟨h1, h2⟩
  simp only [packGreedy] at hc
  split at hc
  · rcases List.mem_append.1 hc with h | h
    · exact h1 c h
    · simp only [List.mem_singleton] at h
      subst h
      exact h2
  · exact h1 c hc

/-- Witness for C2 at a concrete input: pages `["ab"]`, budget 1; the chunk
`"ab"` is oversized and is indeed a member of the cleansed sentence
stream. -/
theorem chunk_size_invariant_witness :
    byteLen "ab" ≤ 1 ∨ (1 < byteLen "ab" ∧ "ab" ∈ cleansedSentences ["ab"]) :=
  chunk_size_invariant ["ab"] 1 (by decide) "ab" (by decide)

/-- C9: the segmenter's per-sentence cleaner deletes whitespace between two
word characters (the sub `(\w)\s+(\w) → \1\2`), fusing adjacent
space-separated Latin words: `clean_text "hello world" = "helloworld"`. -/
theorem clean_text_fuses_latin_words :
    clean_text "hello world" = "helloworld" := by
  decide

/-- C10: in `clean_text` NFKC normalization runs only after the
allowed-character deletion, so full-width digits are deleted rather than
folded to ASCII: `clean_text "１２３"` is the empty string, not `"123"`. -/
theorem clean_text_deletes_fullwidth_digits :
    clean_text "１２３" = "" ∧ clean_text "１２３" ≠ "123" := by
  decide

/-!
## `pdf2text.py`: header/footer detection

`detect_headers_footers` works on the list of `(page_number, text)` pairs.
The float threshold `0.7` is modelled as the exact rational `7/10`; for the
integer counts and totals involved the comparison `count / total >= 0.7`
agrees with the rational one.
-/

/-- `text.split("\n")`, keeping empty pieces, as Python does. -/
def splitOnNewlines : List Char → List (List Char)
  | [] => [[]]
  | c :: rest =>
    let ps := splitOnNewlines rest
    if c = '\n' then [] :: ps
    else
      match ps with
      | p :: ps' => (c :: p) :: ps'
      | [] => [[c]]

/-- `[line.strip() for line in text.split("\n") if line.strip()]`. -/
def pyLines (text : String) : List String :=
  ((splitOnNewlines text.data).map (fun l => (⟨pyStripList l⟩ : String))).filter (· ≠ "")

/-- The `first_lines` list: the first non-empty stripped line of every page
that has one. -/
def firstLines (pages_text : List (Nat × String)) : List String :=
  pages_text.filterMap (fun p => (pyLines p.2).head?)

/-- The `last_lines` list: the last non-empty stripped line of every page
that has one. -/
def lastLines (pages_text : List (Nat × String)) : List String :=
  pages_text.filterMap (fun p => (pyLines p.2).getLast?)

/-- Occurrence count of `s` in `l` (the `Counter` count). -/
def countOcc (l : List String) (s : String) : Nat :=
  (l.filter (· = s)).length

/-- Distinct elements of a list in first-occurrence order (the insertion
order of the keys of a `Counter`). -/
def dedupFirstGo (seen : List String) : List String → List String
  | [] => []
  | x :: xs =>
    if x ∈ seen then dedupFirstGo seen xs
    else x :: dedupFirstGo (x :: seen) xs

/-- Distinct elements in first-occurrence order. -/
def dedupFirst (l : List String) : List String := dedupFirstGo [] l

/-- Fold selecting the element with the strictly greatest count; on ties the
earlier (first-inserted) element is kept, as Python's stable
`Counter.most_common` does. -/
def mc1Go (l : List String) : Option (String × Nat) → List String → Option (String × Nat)
  | best, [] => best
  | none, x :: xs => mc1Go l (some (x, countOcc l x)) xs
  | some (b, c), x :: xs =>
    if c < countOcc l x then mc1Go l (some (x, countOcc l x)) xs
    else mc1Go l (some (b, c)) xs

/-- `Counter(l).most_common(1)`: the most frequent element with its count
(earliest first occurrence on ties), or `none` for an empty list. -/
def mostCommon1 (l : List String) : Option (String × Nat) :=
  mc1Go l none (dedupFirst l)

/-- The threshold acceptance step: keep the candidate only when
`count / total_pages >= threshold`. -/
def acceptCandidate (total : Nat) (threshold : ℚ) :
    Option (String × Nat) → Option String
  | some (h, c) => if threshold ≤ (c : ℚ) / (total : ℚ) then some h else none
  | none => none

/-- The final filter: drop candidates shorter than 5 characters or composed
solely of digits. -/
def lengthDigitFilter : Option String → Option String
  | some h => if h.length < 5 ∨ pyIsDigit h = true then none else some h
  | none => none

/-- `pdf2text.detect_headers_footers`. -/
def detect_headers_footers (pages_text : List (Nat × String)) (threshold : ℚ) :
    Option String × Option String :=
  if pages_text.length < 3 then (none, none)
  else if firstLines pages_text = [] ∨ lastLines pages_text = [] then (none, none)
  else
    (lengthDigitFilter
        (acceptCandidate pages_text.length threshold (mostCommon1 (firstLines pages_text))),
     lengthDigitFilter
        (acceptCandidate pages_text.length threshold (mostCommon1 (lastLines pages_text))))

/-!
### Lemmas about `mostCommon1` and the line lists
-/

theorem countOcc_le_length (l : List String) (s : String) :
    countOcc l s ≤ l.length :=
  List.length_filter_le _ l

theorem countOcc_eq_zero_of_not_mem (l : List String) (s : String) (h : s ∉ l) :
    countOcc l s = 0 := by
  simp only [countOcc, List.length_eq_zero, List.filter_eq_nil_iff]
  intro a ha
  simp only [decide_eq_true_eq]
  intro he
  exact h (he ▸ ha)

theorem mem_dedupFirstGo (x : String) :
    ∀ (ds seen : List String), x ∈ dedupFirstGo seen ds ↔ (x ∈ ds ∧ x ∉ seen) := by
  intro ds
  induction ds with
  | nil => intro seen; simp [dedupFirstGo]
  | cons y ys ih =>
    intro seen
    by_cases hy : y ∈ seen
    · rw [dedupFirstGo, if_pos hy, ih]
      constructor
      · rintro ⟨h1, h2⟩
        exact ⟨List.mem_cons_of_mem _ h1, h2⟩
      · rintro ⟨h1, h2⟩
        rcases List.mem_cons.1 h1 with rfl | h1
        · exact absurd hy h2
        · exact ⟨h1, h2⟩
    · rw [dedupFirstGo, if_neg hy]
      by_cases hxy : x = y
      · subst hxy
        simp [hy]
      · simp only [List.mem_cons, hxy, false_or, ih, List.mem_cons]

theorem mem_dedupFirst (x : String) (l : List String) :
    x ∈ dedupFirst l ↔ x ∈ l := by
  rw [dedupFirst, mem_dedupFirstGo]
  simp

theorem mc1Go_some (l : List String) :
    ∀ (ds : List String) (best : Option (String × Nat)) (x : String) (c : Nat),
      (∀ b cb, best = some (b, cb) → cb = countOcc l b) →
      mc1Go l best ds = some (x, c) →
      c = countOcc l x ∧ (x ∈ ds ∨ best = some (x, c)) := by
  intro ds
  induction ds with
  | nil =>
    intro best x c hbest hres
    rw [mc1Go] at hres
    exact ⟨hbest x c hres, Or.inr hres⟩
  | cons y ys ih =>
    intro best x c hbest hres
    cases best with
    | none =>
      rw [mc1Go] at hres
      have := ih (some (y, countOcc l y)) x c
        (by rintro b cb hb; injection hb with hb; injection hb with h1 h2; subst h1; omega) hres
      rcases this with ⟨h1, h2 | h2⟩
      · exact ⟨h1, Or.inl (List.mem_cons_of_mem _ h2)⟩
      · injection h2 with h2
        injection h2 with h2a h2b
        subst h2a
        exact ⟨h1, Or.inl (List.mem_cons_self _ _)⟩
    | some p =>
      obtain ⟨b, cb⟩ := p
      rw [mc1Go] at hres
      split at hres
      · have := ih (some (y, countOcc l y)) x c
          (by rintro b' cb' hb; injection hb with hb; injection hb with h1 h2; subst h1; omega) hres
        rcases this with ⟨h1, h2 | h2⟩
        · exact ⟨h1, Or.inl (List.mem_cons_of_mem _ h2)⟩
        · injection h2 with h2
          injection h2 with h2a h2b
          subst h2a
          exact ⟨h1, Or.inl (List.mem_cons_self _ _)⟩
      · have := ih (some (b, cb)) x c
          (by rintro b' cb' hb
              injection hb with hb
              injection hb with h1 h2
              subst h1
              have hb0 := hbest b cb rfl
              omega) hres
        rcases this with ⟨h1, h2 | h2⟩
        · exact ⟨h1, Or.inl (List.mem_cons_of_mem _ h2)⟩
        · exact ⟨h1, Or.inr h2⟩

theorem mc1Go_max (l : List String) :
    ∀ (ds : List String) (best : Option (String × Nat)) (x : String) (c : Nat),
      mc1Go l best ds = some (x, c) →
      (∀ y ∈ ds, countOcc l y ≤ c) ∧ (∀ b cb, best = some (b, cb) → cb ≤ c) := by
  intro ds
  induction ds with
  | nil =>
    intro best x c hres
    rw [mc1Go] at hres
    refine ⟨by simp, ?_⟩
    rintro b cb hb
    rw [hb] at hres
    injection hres with h
    injection h with h1 h2
    omega
  | cons y ys ih =>
    intro best x c hres
    cases best with
    | none =>
      rw [mc1Go] at hres
      have := ih (some (y, countOcc l y)) x c hres
      refine ⟨?_, by rintro b cb ⟨⟩⟩
      intro z hz
      rcases List.mem_cons.1 hz with rfl | hz
      · exact this.2 z (countOcc l z) rfl
      · exact this.1 z hz
    | some p =>
      obtain ⟨b, cb⟩ := p
      rw [mc1Go] at hres
      split at hres
      · rename_i hlt
        have := ih (some (y, countOcc l y)) x c hres
        constructor
        · intro z hz
          rcases List.mem_cons.1 hz with rfl | hz
          · exact this.2 z (countOcc l z) rfl
          · exact this.1 z hz
        · rintro b' cb' hb
          injection hb with hb
          injection hb with h1 h2
          subst h2
          have := this.2 y (countOcc l y) rfl
          omega
      · rename_i hge
        have := ih (some (b, cb)) x c hres
        constructor
        · intro z hz
          rcases List.mem_cons.1 hz with rfl | hz
          · have hcb := this.2 b cb rfl
            omega
          · exact this.1 z hz
        · exact this.2

theorem mostCommon1_some (l : List String) (x : String) (c : Nat)
    (h : mostCommon1 l = some (x, c)) :
    c = countOcc l x ∧ x ∈ l ∧ ∀ s, countOcc l s ≤ c := by
  have h1 := mc1Go_some l (dedupFirst l) none x c (by rintro b cb ⟨⟩) h
  have h2 := mc1Go_max l (dedupFirst l) none x c h
  refine ⟨h1.1, ?_, ?_⟩
  · rcases h1.2 with hm | hm
    · exact (mem_dedupFirst x l).1 hm
    · cases hm
  · intro s
    by_cases hs : s ∈ l
    · exact h2.1 s ((mem_dedupFirst s l).2 hs)
    · rw [countOcc_eq_zero_of_not_mem l s hs]
      omega

theorem length_filterMap_eq_count {α β : Type} (f : α → Option β) (l : List α) :
    (l.filterMap f).length = (l.filter (fun a => (f a).isSome)).length := by
  induction l with
  | nil => rfl
  | cons a l ih =>
    cases h : f a <;> simp [List.filterMap_cons, List.filter_cons, h, ih]

theorem length_firstLines (pages_text : List (Nat × String)) :
    (firstLines pages_text).length =
      (pages_text.filter (fun p => pyLines p.2 ≠ [])).length := by
  rw [firstLines, length_filterMap_eq_count]
  congr 1
  apply List.filter_congr
  intro p _
  cases h : pyLines p.2 <;> simp [h]

theorem length_lastLines (pages_text : List (Nat × String)) :
    (lastLines pages_text).length =
      (pages_text.filter (fun p => pyLines p.2 ≠ [])).length := by
  rw [lastLines, length_filterMap_eq_count]
  congr 1
  apply List.filter_congr
  intro p _
  cases h : pyLines p.2 <;> simp [h]

theorem firstLines_nil_iff (pages_text : List (Nat × String)) :
    firstLines pages_text = [] ↔ lastLines pages_text = [] := by
  rw [← List.length_eq_zero, ← List.length_eq_zero, length_firstLines, length_lastLines]

/-- The float comparison `count / total >= 0.7` as the exact integer
inequality `7 * total ≤ 10 * count`. -/
theorem ratio_ge_iff (c N : Nat) (hN : 0 < N) :
    ((7 : ℚ)/10 ≤ (c : ℚ) / (N : ℚ)) ↔ 7 * N ≤ 10 * c := by
  rw [div_le_div_iff₀ (by norm_num) (by exact_mod_cast hN), mul_comm (c : ℚ) 10]
  exact_mod_cast Iff.rfl

theorem acceptCandidate_none_of_small (N : Nat) (l : List String)
    (hN : 3 ≤ N) (hk : l.length ≤ 2) :
    lengthDigitFilter (acceptCandidate N (7/10) (mostCommon1 l)) = none := by
  cases hmc : mostCommon1 l with
  | none => rfl
  | some p =>
    obtain ⟨x, c⟩ := p
    have h1 := mostCommon1_some l x c hmc
    have hc : c ≤ 2 := by
      have h2 := countOcc_le_length l x
      omega
    have hratio : ¬((7 : ℚ)/10 ≤ (c : ℚ)/(N : ℚ)) := by
      rw [ratio_ge_iff c N (by omega)]
      omega
    simp [acceptCandidate, hratio, lengthDigitFilter]

/-- C3: whenever fewer than 3 pages have non-empty content — even when
there are 3 or more pages in total — `detect_headers_footers` (at the
default threshold `0.7`) returns `(none, none)`: with fewer than 3 pages
the early guard fires, and otherwise the best candidate count is at most 2
while `0.7 * total_pages > 2`. -/
theorem detect_few_nonempty_pages (pages_text : List (Nat × String))
    (h : (pages_text.filter (fun p => pyLines p.2 ≠ [])).length < 3) :
    detect_headers_footers pages_text (7/10) = (none, none) := by
  by_cases hlen : pages_text.length < 3
  · simp [detect_headers_footers, hlen]
  · by_cases hfl : firstLines pages_text = [] ∨ lastLines pages_text = []
    · simp [detect_headers_footers, hlen, hfl]
    · have h1 : (firstLines pages_text).length ≤ 2 := by
        rw [length_firstLines]
        omega
      have h2 : (lastLines pages_text).length ≤ 2 := by
        rw [length_lastLines]
        omega
      have hN : 3 ≤ pages_text.length := by omega
      simp only [detect_headers_footers, if_neg hlen, if_neg hfl]
      rw [acceptCandidate_none_of_small _ _ hN h1,
        acceptCandidate_none_of_small _ _ hN h2]

/-- Witness for C3: a list of 3 pages of which 2 are empty strings (only
one page has non-empty content). -/
theorem detect_few_nonempty_pages_witness :
    detect_headers_footers [(1, "a\nb"), (2, ""), (3, "")] (7/10) = (none, none) :=
  detect_few_nonempty_pages [(1, "a\nb"), (2, ""), (3, "")] (by decide)

theorem detect_side_sound (N : Nat) (l : List String) (x : String)
    (hN : 0 < N)
    (hx : lengthDigitFilter (acceptCandidate N (7/10) (mostCommon1 l)) = some x) :
    x ∈ l ∧ (∀ s, countOcc l s ≤ countOcc l x) ∧
      7 * N ≤ 10 * countOcc l x ∧ 5 ≤ x.length ∧ pyIsDigit x = false := by
  cases hmc : mostCommon1 l with
  | none => rw [hmc] at hx; simp [acceptCandidate, lengthDigitFilter] at hx
  | some p =>
    obtain ⟨h, c⟩ := p
    rw [hmc] at hx
    by_cases hr : (7 : ℚ)/10 ≤ (c : ℚ)/(N : ℚ)
    · simp only [acceptCandidate, if_pos hr, lengthDigitFilter] at hx
      by_cases hcond : h.length < 5 ∨ pyIsDigit h = true
      · rw [if_pos hcond] at hx
        cases hx
      · rw [if_neg hcond] at hx
        injection hx with hx
        subst hx
        push_neg at hcond
        have hmm := mostCommon1_some l h c hmc
        refine ⟨hmm.2.1, ?_, ?_, by omega, ?_⟩
        · intro s
          have := hmm.2.2 s
          omega
        · have := (ratio_ge_iff c N hN).1 hr
          omega
        · simpa using hcond.2
    · simp [acceptCandidate, if_neg hr, lengthDigitFilter] at hx

theorem detect_side_complete (N : Nat) (l : List String) (h : String) (c : Nat)
    (hN : 0 < N) (hmc : mostCommon1 l = some (h, c))
    (hlen : 5 ≤ h.length) (hdig : pyIsDigit h = false) :
    lengthDigitFilter (acceptCandidate N (7/10) (mostCommon1 l)) = some h ↔
      7 * N ≤ 10 * c := by
  rw [hmc]
  by_cases hr : (7 : ℚ)/10 ≤ (c : ℚ)/(N : ℚ)
  · have h710 : 7 * N ≤ 10 * c := (ratio_ge_iff c N hN).1 hr
    have hcond : ¬(h.length < 5 ∨ pyIsDigit h = true) := by
      push_neg
      exact ⟨by omega, by simp [hdig]⟩
    simp [acceptCandidate, if_pos hr, lengthDigitFilter, hcond, h710]
  · have hnot : ¬(7 * N ≤ 10 * c) := fun hcc => hr ((ratio_ge_iff c N hN).2 hcc)
    simp [acceptCandidate, if_neg hr, lengthDigitFilter, hnot]

theorem mostCommon1_ne_nil (l : List String) (p : String × Nat)
    (h : mostCommon1 l = some p) : l ≠ [] := by
  intro he
  subst he
  simp [mostCommon1, dedupFirst, dedupFirstGo, mc1Go] at h

/-- C4: characterization of the detector's results at the default
threshold `0.7`.  Soundness: a returned header (footer) belongs to the
first-lines (last-lines) list, has the greatest occurrence count, satisfies
`7 * totalPages ≤ 10 * count` (i.e. `count/totalPages ≥ 0.7`), has length at
least 5 and is not purely numeric — so when no candidate qualifies, `none`
is returned.  Boundary: for at least 3 pages, a most-frequent candidate
that passes the length and digit filters is returned *iff*
`7 * totalPages ≤ 10 * count`; hence a line occurring exactly
`⌈0.7 * N⌉` times is accepted and one occurrence fewer is rejected. -/
theorem detect_candidates_characterized (pages_text : List (Nat × String)) :
    (∀ h, (detect_headers_footers pages_text (7/10)).1 = some h →
        h ∈ firstLines pages_text ∧
        (∀ s, countOcc (firstLines pages_text) s ≤ countOcc (firstLines pages_text) h) ∧
        7 * pages_text.length ≤ 10 * countOcc (firstLines pages_text) h ∧
        5 ≤ h.length ∧ pyIsDigit h = false) ∧
    (∀ f, (detect_headers_footers pages_text (7/10)).2 = some f →
        f ∈ lastLines pages_text ∧
        (∀ s, countOcc (lastLines pages_text) s ≤ countOcc (lastLines pages_text) f) ∧
        7 * pages_text.length ≤ 10 * countOcc (lastLines pages_text) f ∧
        5 ≤ f.length ∧ pyIsDigit f = false) ∧
    (∀ h c, 3 ≤ pages_text.length →
        mostCommon1 (firstLines pages_text) = some (h, c) →
        5 ≤ h.length → pyIsDigit h = false →
        ((detect_headers_footers pages_text (7/10)).1 = some h ↔
          7 * pages_text.length ≤ 10 * c)) ∧
    (∀ f c, 3 ≤ pages_text.length →
        mostCommon1 (lastLines pages_text) = some (f, c) →
        5 ≤ f.length → pyIsDigit f = false →
        ((detect_headers_footers pages_text (7/10)).2 = some f ↔
          7 * pages_text.length ≤ 10 * c)) := by
  by_cases hlen : pages_text.length < 3
  · have hd : detect_headers_footers pages_text (7/10) = (none, none) := by
      simp [detect_headers_footers, hlen]
    rw [hd]
    refine ⟨by rintro h ⟨⟩, by rintro f ⟨⟩, ?_, ?_⟩ <;>
      (intro x c h3 _ _ _; omega)
  · by_cases hfl : firstLines pages_text = [] ∨ lastLines pages_text = []
    · have hd : detect_headers_footers pages_text (7/10) = (none, none) := by
        simp [detect_headers_footers, hlen, hfl]
      rw [hd]
      refine ⟨by rintro h ⟨⟩, by rintro f ⟨⟩, ?_, ?_⟩
      · intro x c _ hmc _ _
        have h1 : firstLines pages_text ≠ [] := mostCommon1_ne_nil _ _ hmc
        have h2 : lastLines pages_text ≠ [] :=
          fun he => h1 ((firstLines_nil_iff pages_text).2 he)
        exact absurd hfl (by simp [h1, h2])
      · intro x c _ hmc _ _
        have h2 : lastLines pages_text ≠ [] := mostCommon1_ne_nil _ _ hmc
        have h1 : firstLines pages_text ≠ [] :=
          fun he => h2 ((firstLines_nil_iff pages_text).1 he)
        exact absurd hfl (by simp [h1, h2])
    · have hN : 0 < pages_text.length := by omega
      have hd : detect_headers_footers pages_text (7/10) =
          (lengthDigitFilter (acceptCandidate pages_text.length (7/10)
              (mostCommon1 (firstLines pages_text))),
           lengthDigitFilter (acceptCandidate pages_text.length (7/10)
              (mostCommon1 (lastLines pages_text)))) := by
        simp [detect_headers_footers, hlen, hfl]
      rw [hd]
      exact ⟨fun h hx => detect_side_sound _ _ h hN hx,
        fun f hx => detect_side_sound _ _ f hN hx,
        fun h c _ hmc hl hdg => detect_side_complete _ _ h c hN hmc hl hdg,
        fun f c _ hmc hl hdg => detect_side_complete _ _ f c hN hmc hl hdg⟩

/-- A concrete 10-page document: 7 pages share the first line
`"Header One"`, 3 pages a different one. -/
def pagesC4 : List (Nat × String) :=
  [(1, "Header One\nbody one\nFooter Line"),
   (2, "Header One\nbody two\nFooter Line"),
   (3, "Header One\nbody three\nFooter Line"),
   (4, "Header One\nbody four\nFooter Line"),
   (5, "Header One\nbody five\nFooter Line"),
   (6, "Header One\nbody six\nFooter Line"),
   (7, "Header One\nbody seven\nFooter Line"),
   (8, "Other Head\nbody eight\nOther Foot"),
   (9, "Other Head\nbody nine\nOther Foot"),
   (10, "Other Head\nbody ten\nOther Foot")]

/-- Witness for C4: on `pagesC4` (10 pages, candidate count 7 =
`⌈0.7 * 10⌉`) the boundary part accepts the header `"Header One"`. -/
theorem detect_candidates_characterized_witness :
    (detect_headers_footers pagesC4 (7/10)).1 = some "Header One" :=
  ((detect_candidates_characterized pagesC4).2.2.1 "Header One" 7 (by decide)
    (by decide) (by decide) (by decide)).mpr (by decide)

/-!
## `pdf2text.py`: the cleansing pipeline
-/

/-- The control/invisible-character class
`[\x00-\x1F\x7F­​-‍﻿]` deleted first by
`remove_pdf_artifacts`. -/
def isCtrlOrInvisible (c : Char) : Bool :=
  c ≤ '\x1f' || c = '\x7f' || c = '­' ||
  ('​' ≤ c && c ≤ '‍') || c = '﻿'

/-- The `OCR_REPLACEMENTS` table of `pdf2text.py`.  All keys are single
full-width characters and all values single ASCII characters (never keys
themselves), so the sequence of `str.replace` calls equals one
character-wise map. -/
def ocrTable : List (Char × Char) :=
  [('，', ','), ('．', '.'), ('；', ';'), ('：', ':'), ('！', '!'), ('？', '?'),
   ('＂', '\x22'), ('＇', '\x27'), ('｀', '\x60'), ('（', '('), ('）', ')'),
   ('［', '['), ('］', ']'), ('｛', '\x7b'), ('｝', '\x7d'), ('＜', '<'), ('＞', '>'),
   ('＝', '='), ('＋', '+'), ('－', '-'), ('＊', '*'), ('／', '/'), ('￥', '\\'),
   ('｜', '|'), ('＠', '@'), ('＃', '#'), ('＄', '$'), ('％', '%'), ('＆', '&'),
   ('＾', '^'), ('￣', '~'), ('　', ' '),
   ('０', '0'), ('１', '1'), ('２', '2'), ('３', '3'), ('４', '4'), ('５', '5'),
   ('６', '6'), ('７', '7'), ('８', '8'), ('９', '9'),
   ('Ａ', 'A'), ('Ｂ', 'B'), ('Ｃ', 'C'), ('Ｄ', 'D'), ('Ｅ', 'E'), ('Ｆ', 'F'),
   ('Ｇ', 'G'), ('Ｈ', 'H'), ('Ｉ', 'I'), ('Ｊ', 'J'), ('Ｋ', 'K'), ('Ｌ', 'L'),
   ('Ｍ', 'M'), ('Ｎ', 'N'), ('Ｏ', 'O'), ('Ｐ', 'P'), ('Ｑ', 'Q'), ('Ｒ', 'R'),
   ('Ｓ', 'S'), ('Ｔ', 'T'), ('Ｕ', 'U'), ('Ｖ', 'V'), ('Ｗ', 'W'), ('Ｘ', 'X'),
   ('Ｙ', 'Y'), ('Ｚ', 'Z'),
   ('ａ', 'a'), ('ｂ', 'b'), ('ｃ', 'c'), ('ｄ', 'd'), ('ｅ', 'e'), ('ｆ', 'f'),
   ('ｇ', 'g'), ('ｈ', 'h'), ('ｉ', 'i'), ('ｊ', 'j'), ('ｋ', 'k'), ('ｌ', 'l'),
   ('ｍ', 'm'), ('ｎ', 'n'), ('ｏ', 'o'), ('ｐ', 'p'), ('ｑ', 'q'), ('ｒ', 'r'),
   ('ｓ', 's'), ('ｔ', 't'), ('ｕ', 'u'), ('ｖ', 'v'), ('ｗ', 'w'), ('ｘ', 'x'),
   ('ｙ', 'y'), ('ｚ', 'z')]

/-- `apply_ocr_fixes` as a character map. -/
def ocrFix (c : Char) : Char := (ocrTable.lookup c).getD c

/-- Try values `n, n-1, …, 0` in order, returning the first success (the
backtracking order of a greedy `X*`: longest first). -/
def descendTry {α : Type} : Nat → (Nat → Option α) → Option α
  | 0, f => f 0
  | n + 1, f => (f (n + 1)).orElse (fun _ => descendTry n f)

/-- Drop an exact (case-sensitive) literal prefix. -/
def dropPrefixExact : List Char → List Char → Option (List Char)
  | [], r => some r
  | _ :: _, [] => none
  | p :: ps, c :: cs => if p = c then dropPrefixExact ps cs else none

/-- Drop a case-insensitive ASCII literal prefix (the pattern letters are
written in lower case). -/
def ciDropPrefix : List Char → List Char → Option (List Char)
  | [], r => some r
  | _ :: _, [] => none
  | p :: ps, c :: cs => if p = c.toLower then ciDropPrefix ps cs else none

/-- Consume a non-empty maximal run of characters satisfying `p` (a greedy
`X+` of a class disjoint from what follows). -/
def dropRun1 (p : Char → Bool) (l : List Char) : Option (List Char) :=
  let r := l.takeWhile p
  if r = [] then none else some (l.drop r.length)

/-- `\b` on the left: the previous original character (head of `rev`) is
not a word character, or there is none; used before pattern pieces that
start with a word character. -/
def wordBoundaryLeft (rev : List Char) : Bool :=
  match rev with
  | [] => true
  | c :: _ => !isWordChar c

/-- `\b` on the right after a word character: the next character is not a
word character, or there is none. -/
def wordBoundaryRight (rest : List Char) : Bool :=
  match rest with
  | [] => true
  | c :: _ => !isWordChar c

/-- `^` in MULTILINE mode: at the start of the string or right after a
newline of the original string. -/
def atLineStart (rev : List Char) : Bool :=
  match rev with
  | [] => true
  | c :: _ => c = '\n'

/-- `$` in MULTILINE mode: at the end of the string or right before a
newline. -/
def dollarAt (rest : List Char) : Bool :=
  match rest with
  | [] => true
  | c :: _ => c = '\n'

/-- The alternatives of the boilerplate pattern
`\b(confidential|draft|do not copy|sample|watermark)\b` (IGNORECASE). -/
def boilerplateWords : List (List Char) :=
  ["confidential".data, "draft".data, "do not copy".data, "sample".data,
   "watermark".data]

/-- Matcher for the boilerplate pattern: a word boundary, one of the
literals case-insensitively, a word boundary.  The alternatives have
pairwise incompatible prefixes, so trying them in order is exact. -/
def tryBoilerplate (rev rest : List Char) : Option (Nat × List Char) :=
  if wordBoundaryLeft rev then
    boilerplateWords.findSome? (fun w =>
      match ciDropPrefix w rest with
      | some r => if wordBoundaryRight r then some (w.length, ([] : List Char)) else none
      | none => none)
  else none

/-- Matcher for `\bpage\s+\d+(\s+of\s+\d+)?\b` (IGNORECASE).  The greedy
runs are forced (adjacent classes are disjoint), so the only backtracking
point is the optional group, tried first with it, then without. -/
def tryPagePattern (rev rest : List Char) : Option (Nat × List Char) :=
  if wordBoundaryLeft rev then
    match ciDropPrefix "page".data rest with
    | none => none
    | some r1 =>
      match dropRun1 isPySpace r1 with
      | none => none
      | some r2 =>
        match dropRun1 isReDigit r2 with
        | none => none
        | some r3 =>
          let withOf :=
            (dropRun1 isPySpace r3).bind fun r4 =>
            (ciDropPrefix "of".data r4).bind fun r5 =>
            (dropRun1 isPySpace r5).bind fun r6 =>
            (dropRun1 isReDigit r6).bind fun r7 =>
            if wordBoundaryRight r7 then some r7 else none
          match withOf with
          | some r7 => some (rest.length - r7.length, [])
          | none =>
            if wordBoundaryRight r3 then some (rest.length - r3.length, [])
            else none
  else none

/-- Length of the maximal prefix matching `\s*[-_]*\s*` (three maximal
runs; the set of prefixes of this shape is prefix-closed, so every
expressible end position is at most this length). -/
def sdsRun (l : List Char) : Nat :=
  let a := l.takeWhile isPySpace
  let r1 := l.drop a.length
  let b := r1.takeWhile (fun c => c = '-' || c = '_')
  let r2 := r1.drop b.length
  let cc := r2.takeWhile isPySpace
  a.length + b.length + cc.length

/-- Matcher for the isolated-page-number-line pattern
`^\s*[-_]*\s*\d+\s*[-_]*\s*$` (MULTILINE; `\s` includes newlines).  The
digits must start right after the maximal `\s*[-_]*\s*` prefix (no digit
can occur inside it); after the digits the greedy trailer takes the longest
`\s*[-_]*\s*` prefix whose end position satisfies `$`, descending. -/
def tryIsolatedLine (rev rest : List Char) : Option (Nat × List Char) :=
  if atLineStart rev then
    let n1 := sdsRun rest
    let r1 := rest.drop n1
    let d := r1.takeWhile isReDigit
    if d = [] then none
    else
      let r2 := r1.drop d.length
      (descendTry (sdsRun r2) (fun e =>
        if dollarAt (r2.drop e) then some e else none)).map
        (fun e => (n1 + d.length + e, []))
  else none

/-- Matcher for `\d{1,3}\s*/\s*\d{1,3}`: one to three digits (greedy,
with backtracking), optional whitespace, `/`, optional whitespace, one to
three digits (greedy, nothing follows). -/
def tryPagination (_rev rest : List Char) : Option (Nat × List Char) :=
  let ds := (rest.takeWhile isReDigit).length
  if ds = 0 then none
  else
    descendTry (min ds 3) (fun k =>
      if k = 0 then none
      else
        let r1 := rest.drop k
        let w1 := (r1.takeWhile isPySpace).length
        match r1.drop w1 with
        | '/' :: r2 =>
          let w2 := (r2.takeWhile isPySpace).length
          let r3 := r2.drop w2
          let d2 := min (r3.takeWhile isReDigit).length 3
          if d2 = 0 then none
          else some (k + w1 + 1 + w2 + d2, ([] : List Char))
        | _ => none)

/-- The table-border class (`TABLE_BORDER_PATTERN`): exactly the code
points U+2502–U+254B (`─` U+2500 and `━` U+2501 are *not* in the source
list). -/
def isTableBorder (c : Char) : Bool := '│' ≤ c && c ≤ '╋'

/-- `remove_pdf_artifacts`: delete control/invisible characters, apply the
four artifact patterns in their list order, then replace table-border
glyphs by a space. -/
def remove_pdf_artifacts (l : List Char) : List Char :=
  let l1 := l.filter (fun c => !isCtrlOrInvisible c)
  let l2 := subPass tryBoilerplate l1
  let l3 := subPass tryPagePattern l2
  let l4 := subPass tryIsolatedLine l3
  let l5 := subPass tryPagination l4
  l5.map (fun c => if isTableBorder c then ' ' else c)

/-- The `[\n\r]` class. -/
def isNlCr (c : Char) : Bool := c = '\n' || c = '\r'

/-- Matcher for `(\w)-[\n\r]+(\w)` → `\1\2`: word character, hyphen,
newline run, word character; both word characters are consumed. -/
def tryLatinHyphen (_rev rest : List Char) : Option (Nat × List Char) :=
  match rest with
  | c :: '-' :: r =>
    if isWordChar c then
      let nl := (r.takeWhile isNlCr).length
      if nl = 0 then none
      else
        match r.drop nl with
        | d :: _ => if isWordChar d then some (2 + nl + 1, [c, d]) else none
        | [] => none
    else none
  | _ => none

/-- Matcher for `([CJK])[\s\n\r]+([CJK])` → `\1\2` and
`([CJK])\s+([CJK])` → `\1\2` (the two middle classes coincide, `\n` and
`\r` being whitespace); the second CJK character is consumed. -/
def tryCjkJoin (_rev rest : List Char) : Option (Nat × List Char) :=
  match rest with
  | c :: r =>
    if isCJK c then
      let sp := (r.takeWhile isPySpace).length
      if sp = 0 then none
      else
        match r.drop sp with
        | d :: _ => if isCJK d then some (1 + sp + 1, [c, d]) else none
        | [] => none
    else none
  | [] => none

/-- `fix_hyphenation`: the Latin hyphen repair, then the CJK join. -/
def fix_hyphenation (l : List Char) : List Char :=
  subPass tryCjkJoin (subPass tryLatinHyphen l)

/-- Index of the last `\r`/`\n` in a list, if any. -/
def lastNlIdx : List Char → Option Nat
  | [] => none
  | c :: r =>
    match lastNlIdx r with
    | some j => some (j + 1)
    | none => if isNlCr c then some 0 else none

/-- Matcher for the header-removal pattern `^\s*HEADER\s*[\r\n]+`
(MULTILINE, `re.escape`d literal header): at a line start, a greedy
whitespace run (longest first), the literal, then whitespace whose tail is
a non-empty `[\r\n]+` run (the greedy inner `\s*` stops at the last
`\r`/`\n` of the following whitespace run). -/
def tryHeaderSub (hdr : List Char) (rev rest : List Char) :
    Option (Nat × List Char) :=
  if atLineStart rev then
    descendTry (rest.takeWhile isPySpace).length (fun i =>
      (dropPrefixExact hdr (rest.drop i)).bind (fun r1 =>
        let run := r1.takeWhile isPySpace
        (lastNlIdx run).map (fun j =>
          (i + hdr.length + j + ((run.drop j).takeWhile isNlCr).length,
            ([] : List Char)))))
  else none

/-- Matcher for the footer-removal pattern `[\r\n]+\s*FOOTER\s*$`
(MULTILINE). -/
def tryFooterSub (ftr : List Char) (_rev rest : List Char) :
    Option (Nat × List Char) :=
  let nl := (rest.takeWhile isNlCr).length
  if nl = 0 then none
  else
    descendTry nl (fun k =>
      if k = 0 then none
      else
        let r1 := rest.drop k
        descendTry (r1.takeWhile isPySpace).length (fun i =>
          (dropPrefixExact ftr (r1.drop i)).bind (fun r2 =>
            descendTry (r2.takeWhile isPySpace).length (fun e =>
              if dollarAt (r2.drop e) then
                some (k + i + ftr.length + e, ([] : List Char))
              else none))))

/-- `.replace("\n", " ").replace("\r", "")`. -/
def flattenNewlines (l : List Char) : List Char :=
  (l.map (fun c => if c = '\n' then ' ' else c)).filter (· ≠ '\r')

/-- The `ALLOWED_CHARS_PATTERN` allow-list of `pdf2text.py`: ASCII
alphanumerics, hiragana, katakana, kanji, CJK symbols and punctuation
(U+3000–U+303F), whitespace, the listed ASCII punctuation, and
`・「」『』【】` (each already inside the katakana / CJK-punctuation
blocks).  Everything else is deleted — in particular the bullet glyphs
`•◦⦿⦁⚫○` are *not* in this list. -/
def allowedP2T (c : Char) : Bool :=
  c.isAlphanum || isHiragana c || isKatakana c || isKanji c ||
  ('　' ≤ c && c ≤ '〿') || isPySpace c ||
  c = '.' || c = ',' || c = '!' || c = '?' || c = ':' || c = ';' ||
  c = '\x27' || c = '\x22' || c = '(' || c = ')' || c = '[' || c = ']' ||
  c = '\x7b' || c = '\x7d' || c = '<' || c = '>' || c = '\x60' ||
  c = '+' || c = '-' || c = '*' || c = '/' || c = '=' || c = '\\' ||
  c = '%' || c = '&' || c = '|' || c = '#' || c = '@' || c = '~' ||
  c = '・' || c = '「' || c = '」' || c = '『' || c = '』' ||
  c = '【' || c = '】'

/-- The bullet glyph class `[•◦⦿⦁⚫○]`. -/
def isBulletGlyph (c : Char) : Bool :=
  c = '•' || c = '◦' || c = '⦿' || c = '⦁' || c = '⚫' || c = '○'

/-- Matcher for `[•◦⦿⦁⚫○]\s*` → `"• "`. -/
def tryBulletSub (_rev rest : List Char) : Option (Nat × List Char) :=
  match rest with
  | c :: r =>
    if isBulletGlyph c then some (1 + (r.takeWhile isPySpace).length, ['•', ' '])
    else none
  | [] => none

/-- Matcher for `^\s*•` → `"•"` (MULTILINE). -/
def tryBulletLineStart (rev rest : List Char) : Option (Nat × List Char) :=
  if atLineStart rev then
    let sp := (rest.takeWhile isPySpace).length
    match rest.drop sp with
    | c :: _ => if c = '•' then some (sp + 1, ['•']) else none
    | [] => none
  else none

/-- The closing-punctuation class `[.,!?:;、。』】）)\]]` of the
space-before-punctuation sub. -/
def isClosingPunct (c : Char) : Bool :=
  c = '.' || c = ',' || c = '!' || c = '?' || c = ':' || c = ';' ||
  c = '、' || c = '。' || c = '』' || c = '】' || c = '）' || c = ')' || c = ']'

/-- The opening-bracket class `[「『（([【]`. -/
def isOpenBracket (c : Char) : Bool :=
  c = '「' || c = '『' || c = '（' || c = '(' || c = '[' || c = '【'

/-- Matcher for `([「『（\(\[【])\s+` → `\1`. -/
def tryBracketAfter (_rev rest : List Char) : Option (Nat × List Char) :=
  match rest with
  | c :: r =>
    if isOpenBracket c then
      let sp := (r.takeWhile isPySpace).length
      if sp = 0 then none else some (1 + sp, [c])
    else none
  | [] => none

/-- The repeated-punctuation class `[.,!?:;、。]`. -/
def punctRepeat (c : Char) : Bool :=
  c = '.' || c = ',' || c = '!' || c = '?' || c = ':' || c = ';' ||
  c = '、' || c = '。'

/-- Matcher for `([.,!?:;、。])\1+` → `\1`: a run of at least two equal
characters of the class collapses to one. -/
def tryPunctRun (_rev rest : List Char) : Option (Nat × List Char) :=
  match rest with
  | c :: d :: _ =>
    if punctRepeat c && c = d then some ((rest.takeWhile (· = c)).length, [c])
    else none
  | _ => none

/-- `normalize_whitespace_and_punctuation`: whitespace collapse, bullet
unification, line-start bullet fix, space-before-punctuation removal,
space-after-bracket removal, CJK-space removal, repeated-punctuation
collapse, strip. -/
def normalize_whitespace_and_punctuation (s : String) : String :=
  let l1 := subPass tryWsRun s.data
  let l2 := subPass tryBulletSub l1
  let l3 := subPass tryBulletLineStart l2
  let l4 := subPass (trySpaceBefore isClosingPunct) l3
  let l5 := subPass tryBracketAfter l4
  let l6 := subPass tryCjkJoin l5
  let l7 := subPass tryPunctRun l6
  ⟨pyStripList l7⟩

/-- `clean_pdf_text`: the full cleansing pipeline (NFKC, OCR fixes,
artifact removal, optional header/footer removal, hyphenation repair,
newline flattening, allowed-character deletion, whitespace/punctuation
normalization, final whitespace-only check). -/
def clean_pdf_text (text : String)
    (remove_header remove_footer : Option String) : String :=
  if pyStrip text = "" then ""
  else
    let t1 := text.data.map nfkcChar
    let t2 := t1.map ocrFix
    let t3 := remove_pdf_artifacts t2
    let t4 := match remove_header with
      | some hdr => subPass (tryHeaderSub hdr.data) t3
      | none => t3
    let t5 := match remove_footer with
      | some ftr => subPass (tryFooterSub ftr.data) t4
      | none => t4
    let t6 := fix_hyphenation t5
    let t7 := flattenNewlines t6
    let t8 := t7.filter allowedP2T
    let r := normalize_whitespace_and_punctuation ⟨t8⟩
    if pyIsSpaceStr r then "" else r


/-!
## Claims C5, C6, C7: pipeline evaluations
-/

/-- C5 counterexample: the full cleansing pipeline is not idempotent.
Removing the pagination token `1/2` from `"pa1/2ge 3"` creates the new
boilerplate `"page 3"`, which only a second pass removes, so
`clean_pdf_text (clean_pdf_text s) ≠ clean_pdf_text s` at `s = "pa1/2ge 3"`
(no header/footer given). -/
theorem clean_pdf_text_not_idempotent_cex :
    clean_pdf_text (clean_pdf_text "pa1/2ge 3" none none) none none ≠
      clean_pdf_text "pa1/2ge 3" none none := by
  decide

/-- C5 (amended): the pipeline is not idempotent in general — a pass can
create new artifact-pattern matches out of the seams of removed ones, and
a second pass removes those: one application maps `"pa1/2ge 3"` to
`"page 3"` and a second application maps that to `""`. -/
theorem clean_pdf_text_second_pass_shrinks :
    clean_pdf_text "pa1/2ge 3" none none = "page 3" ∧
      clean_pdf_text "page 3" none none = "" := by
  decide

/-- C6: `ALLOWED_CHARS_PATTERN` (step 7 of `clean_pdf_text`) does not
contain the bullet glyphs, so they are deleted before the
bullet-unification sub of `normalize_whitespace_and_punctuation` (step 8)
can see them: both `"◦Item"` and `"•Item"` map to `"Item"`, not to the
documented `"• Item"`.  The unification sub itself does produce `"• Item"`,
exhibiting the intent of the (unreachable) branch. -/
theorem clean_pdf_text_drops_bullets :
    clean_pdf_text "◦Item" none none = "Item" ∧
      clean_pdf_text "•Item" none none = "Item" ∧
      normalize_whitespace_and_punctuation "◦Item" = "• Item" := by
  decide

/-- C7: the embedding of `clean_pdf_text` is a total function (the code
never raises on string input), and every input whose `strip()` is empty —
in particular the empty string; non-string inputs are not expressible in
the typed embedding — yields the empty string via the initial guard. -/
theorem clean_pdf_text_empty_input (text : String) (h : pyStrip text = "") :
    clean_pdf_text text none none = "" := by
  simp [clean_pdf_text, h]

/-- Witness for C7 at the empty string. -/
theorem clean_pdf_text_empty_input_witness :
    clean_pdf_text "" none none = "" :=
  clean_pdf_text_empty_input "" (by decide)

/-!
## Claim C8: shape of non-empty outputs
-/

/-- ASCII punctuation — the claim-side reading of "punctuation mark". -/
def isPunctMark (c : Char) : Bool :=
  c = '!' || c = '\x22' || c = '#' || c = '$' || c = '%' || c = '&' ||
  c = '\x27' || c = '(' || c = ')' || c = '*' || c = '+' || c = ',' ||
  c = '-' || c = '.' || c = '/' || c = ':' || c = ';' || c = '<' ||
  c = '=' || c = '>' || c = '?' || c = '@' || c = '[' || c = '\\' ||
  c = ']' || c = '^' || c = '_' || c = '\x60' || c = '\x7b' || c = '|' ||
  c = '\x7d' || c = '~'

/-- Does the list contain two adjacent equal characters of class `p`? -/
def hasDoubleRun (p : Char → Bool) : List Char → Bool
  | c :: d :: r => (p c && c = d) || hasDoubleRun p (d :: r)
  | _ => false

/-- C8 counterexample: `clean_pdf_text "a((b" = "a((b"` — a non-empty
output containing the run `((` of two identical punctuation marks, because
the repeated-punctuation collapse only covers `.,!?:;、。`. -/
theorem clean_pdf_text_double_bracket_cex :
    clean_pdf_text "a((b" none none ≠ "" ∧
      isPunctMark '(' = true ∧
      hasDoubleRun isPunctMark (clean_pdf_text "a((b" none none).data = true := by
  decide

/-- Head character of a bad adjacent pair. -/
def pairBad (p : Char → Bool) (c : Char) : List Char → Bool
  | d :: _ => p c && c = d
  | [] => false

theorem hasDoubleRun_cons_eq (p : Char → Bool) (c : Char) (l : List Char) :
    hasDoubleRun p (c :: l) = (pairBad p c l || hasDoubleRun p l) := by
  cases l <;> simp [hasDoubleRun, pairBad]

theorem hasDoubleRun_tail (p : Char → Bool) (c : Char) (l : List Char)
    (h : hasDoubleRun p (c :: l) = false) : hasDoubleRun p l = false := by
  rw [hasDoubleRun_cons_eq] at h
  exact (Bool.or_eq_false_iff.1 h).2

theorem head_dropWhile_not (p : Char → Bool) (l : List Char) :
    ∀ c, (l.dropWhile p).head? = some c → p c = false := by
  induction l with
  | nil => intro c h; cases h
  | cons a l ih =>
    intro c h
    by_cases ha : p a = true
    · rw [List.dropWhile_cons_of_pos ha] at h
      exact ih c h
    · rw [List.dropWhile_cons_of_neg ha] at h
      injection h with h
      subst h
      simpa using ha

theorem drop_takeWhile_length (p : Char → Bool) (l : List Char) :
    l.drop (l.takeWhile p).length = l.dropWhile p := by
  induction l with
  | nil => rfl
  | cons a l ih =>
    by_cases ha : p a = true
    · rw [List.takeWhile_cons_of_pos ha, List.dropWhile_cons_of_pos ha]
      simpa using ih
    · rw [List.takeWhile_cons_of_neg ha, List.dropWhile_cons_of_neg ha]
      rfl

theorem hasDoubleRun_dropWhile (p q : Char → Bool) (l : List Char)
    (h : hasDoubleRun p l = false) :
    hasDoubleRun p (l.dropWhile q) = false := by
  induction l with
  | nil => exact h
  | cons a l ih =>
    by_cases ha : q a = true
    · rw [List.dropWhile_cons_of_pos ha]
      exact ih (hasDoubleRun_tail p a l h)
    · rwa [List.dropWhile_cons_of_neg ha]

theorem dropTrailingSpaces_head (l : List Char)
    (h : dropTrailingSpaces l ≠ []) :
    (dropTrailingSpaces l).head? = l.head? := by
  cases l with
  | nil => rfl
  | cons c r =>
    rw [dropTrailingSpaces]
    rw [dropTrailingSpaces] at h
    cases hr : dropTrailingSpaces r with
    | nil =>
      rw [hr] at h
      by_cases hc : isPySpace c = true
      · rw [if_pos hc] at h
        exact absurd rfl h
      · rw [if_neg hc]
        rfl
    | cons d r' => rfl

theorem hasDoubleRun_dropTrailing (p : Char → Bool) (l : List Char)
    (h : hasDoubleRun p l = false) :
    hasDoubleRun p (dropTrailingSpaces l) = false := by
  induction l with
  | nil => rfl
  | cons c r ih =>
    rw [dropTrailingSpaces]
    cases hr : dropTrailingSpaces r with
    | nil =>
      by_cases hc : isPySpace c = true <;> simp [hc, hasDoubleRun]
    | cons d r' =>
      have hrd : hasDoubleRun p (d :: r') = false := by
        rw [← hr]
        exact ih (hasDoubleRun_tail p c r h)
      rw [hasDoubleRun_cons_eq]
      rw [hasDoubleRun_cons_eq] at hrd ⊢
      have hdh : (d :: r').head? = r.head? := by
        rw [← hr]
        exact dropTrailingSpaces_head r (by rw [hr]; exact List.cons_ne_nil d r')
      rw [hasDoubleRun_cons_eq] at h
      have h1 := (Bool.or_eq_false_iff.1 h).1
      have hpair : pairBad p c (d :: r') = false := by
        simp only [pairBad]
        cases r with
        | nil => cases hdh
        | cons e r'' =>
          simp only [List.head?_cons] at hdh
          injection hdh with hdh
          subst hdh
          simpa [pairBad] using h1
      rw [hpair]
      simpa using hrd

theorem pyStripList_no_double (p : Char → Bool) (l : List Char)
    (h : hasDoubleRun p l = false) :
    hasDoubleRun p (pyStripList l) = false :=
  hasDoubleRun_dropTrailing p _ (hasDoubleRun_dropWhile p isPySpace l h)

theorem tryPunctRun_some (rev rest : List Char) (n : Nat) (rep : List Char)
    (h : tryPunctRun rev rest = some (n, rep)) :
    ∃ c, rest.head? = some c ∧ rep = [c] ∧
      n = (rest.takeWhile (· = c)).length ∧ 2 ≤ n := by
  match rest with
  | [] => cases h
  | [c] => cases h
  | c :: d :: r =>
    simp only [tryPunctRun] at h
    by_cases hcd : (punctRepeat c && c = d) = true
    · rw [if_pos hcd] at h
      injection h with h
      injection h with h1 h2
      refine ⟨c, rfl, h2.symm, h1.symm, ?_⟩
      have hd : c = d := by
        rw [Bool.and_eq_true] at hcd
        exact of_decide_eq_true hcd.2
      subst hd
      rw [List.takeWhile_cons_of_pos (by simp), List.takeWhile_cons_of_pos (by simp)] at h1
      simp only [List.length_cons] at h1
      omega
    · rw [if_neg hcd] at h
      cases h

theorem subPunct_head (fuel : Nat) :
    ∀ (rev l : List Char),
      (subPassGo tryPunctRun fuel rev l).head? = l.head? := by
  induction fuel with
  | zero => intro rev l; rfl
  | succ fuel ih =>
    intro rev l
    cases l with
    | nil => rfl
    | cons c rest =>
      cases htry : tryPunctRun rev (c :: rest) with
      | none => simp [subPassGo, htry]
      | some p =>
        obtain ⟨n, rep⟩ := p
        obtain ⟨c', hc', hrep, hn, h2⟩ := tryPunctRun_some rev (c :: rest) n rep htry
        simp only [List.head?_cons] at hc'
        injection hc' with hc'
        subst hc'
        subst hrep
        obtain ⟨m, rfl⟩ : ∃ m, n = m + 1 := ⟨n - 1, by omega⟩
        simp [subPassGo, htry]

theorem subPunct_no_double (fuel : Nat) :
    ∀ (rev l : List Char), l.length ≤ fuel →
      hasDoubleRun punctRepeat (subPassGo tryPunctRun fuel rev l) = false := by
  induction fuel with
  | zero =>
    intro rev l h
    have hl : l = [] := List.length_eq_zero.1 (Nat.le_zero.1 h)
    subst hl
    rfl
  | succ fuel ih =>
    intro rev l hlen
    cases l with
    | nil => rfl
    | cons c rest =>
      have hrl : rest.length ≤ fuel := by
        simp only [List.length_cons] at hlen
        omega
      cases htry : tryPunctRun rev (c :: rest) with
      | none =>
        have hred : subPassGo tryPunctRun (fuel + 1) rev (c :: rest) =
            c :: subPassGo tryPunctRun fuel (c :: rev) rest := by
          simp [subPassGo, htry]
        rw [hred, hasDoubleRun_cons_eq]
        have hrec := ih (c :: rev) rest hrl
        have hpair : pairBad punctRepeat c (subPassGo tryPunctRun fuel (c :: rev) rest) = false := by
          cases hh : subPassGo tryPunctRun fuel (c :: rev) rest with
          | nil => rfl
          | cons d r' =>
            simp only [pairBad]
            have hhead := subPunct_head fuel (c :: rev) rest
            rw [hh] at hhead
            cases rest with
            | nil => cases hhead
            | cons e r2 =>
              simp only [List.head?_cons] at hhead
              injection hhead with hhead
              subst hhead
              simp only [tryPunctRun] at htry
              by_cases hcd : (punctRepeat c && c = d) = true
              · rw [if_pos hcd] at htry
                cases htry
              · simpa using hcd
        rw [hpair, hrec]
        rfl
      | some p =>
        obtain ⟨n, rep⟩ := p
        obtain ⟨c', hc', hrep, hn, h2⟩ := tryPunctRun_some rev (c :: rest) n rep htry
        simp only [List.head?_cons] at hc'
        injection hc' with hc'
        subst hc'
        subst hrep
        obtain ⟨m, rfl⟩ : ∃ m, n = m + 1 := ⟨n - 1, by omega⟩
        have hred : subPassGo tryPunctRun (fuel + 1) rev (c :: rest) =
            c :: subPassGo tryPunctRun fuel
              (((c :: rest).take (m + 1)).reverse ++ rev) (rest.drop m) := by
          simp [subPassGo, htry]
        have hm : m = (rest.takeWhile (· = c)).length := by
          rw [List.takeWhile_cons_of_pos (by simp)] at hn
          simp only [List.length_cons] at hn
          omega
        have hdropm : rest.drop m = rest.dropWhile (· = c) := by
          rw [hm, drop_takeWhile_length]
        rw [hred, hasDoubleRun_cons_eq]
        have hrec := ih (((c :: rest).take (m + 1)).reverse ++ rev) (rest.drop m)
          (le_trans (by rw [List.length_drop]; omega) hrl)
        have hpair : pairBad punctRepeat c
            (subPassGo tryPunctRun fuel (((c :: rest).take (m + 1)).reverse ++ rev)
              (rest.drop m)) = false := by
          cases hh : subPassGo tryPunctRun fuel (((c :: rest).take (m + 1)).reverse ++ rev)
              (rest.drop m) with
          | nil => rfl
          | cons d r' =>
            simp only [pairBad]
            have hhead := subPunct_head fuel (((c :: rest).take (m + 1)).reverse ++ rev)
              (rest.drop m)
            rw [hh, hdropm] at hhead
            simp only [List.head?_cons] at hhead
            have hdc : ¬ d = c := of_decide_eq_false
              (head_dropWhile_not (fun x => decide (x = c)) rest d hhead.symm)
            simp [Ne.symm hdc]
        rw [hpair, hrec]
        rfl

theorem dropTrailingSpaces_idem (l : List Char) :
    dropTrailingSpaces (dropTrailingSpaces l) = dropTrailingSpaces l := by
  induction l with
  | nil => rfl
  | cons c r ih =>
    rw [dropTrailingSpaces]
    cases hr : dropTrailingSpaces r with
    | nil =>
      by_cases hc : isPySpace c = true
      · rw [if_pos hc]
        rfl
      · rw [if_neg hc]
        simp [dropTrailingSpaces, hc]
    | cons d r' =>
      have h2 : dropTrailingSpaces (d :: r') = d :: r' := by
        rw [← hr, ih]
      rw [dropTrailingSpaces, h2]

theorem dropWhile_eq_self_of_head (p : Char → Bool) (l : List Char)
    (h : ∀ c, l.head? = some c → p c = false) :
    l.dropWhile p = l := by
  cases l with
  | nil => rfl
  | cons c r =>
    rw [List.dropWhile_cons_of_neg]
    simp [h c rfl]

theorem pyStripList_idem (l : List Char) :
    pyStripList (pyStripList l) = pyStripList l := by
  rw [pyStripList, pyStripList]
  rw [dropWhile_eq_self_of_head isPySpace (dropTrailingSpaces (l.dropWhile isPySpace))
    (fun c hc => by
      have hne : dropTrailingSpaces (l.dropWhile isPySpace) ≠ [] := by
        intro he
        rw [he] at hc
        cases hc
      rw [dropTrailingSpaces_head _ hne] at hc
      exact head_dropWhile_not isPySpace l c hc)]
  exact dropTrailingSpaces_idem _

/-- Any `normalize_whitespace_and_punctuation` output contains no run of
two or more identical characters from the collapsed set `.,!?:;、。`. -/
theorem normalize_no_double (s : String) :
    hasDoubleRun punctRepeat (normalize_whitespace_and_punctuation s).data = false := by
  simp only [normalize_whitespace_and_punctuation]
  exact pyStripList_no_double _ _ (subPunct_no_double _ _ _ (le_refl _))

/-- Any `normalize_whitespace_and_punctuation` output is its own strip. -/
theorem normalize_strip_fix (s : String) :
    pyStrip (normalize_whitespace_and_punctuation s) =
      normalize_whitespace_and_punctuation s := by
  simp only [normalize_whitespace_and_punctuation, pyStrip]
  exact congrArg String.mk (pyStripList_idem _)

/-- `clean_pdf_text` returns either the empty string or the output of the
final normalization stage. -/
theorem clean_pdf_text_cases (text : String) (hdr ftr : Option String) :
    clean_pdf_text text hdr ftr = "" ∨
      ∃ s, clean_pdf_text text hdr ftr = normalize_whitespace_and_punctuation s := by
  by_cases hg : pyStrip text = ""
  · left
    simp [clean_pdf_text, hg]
  · simp only [clean_pdf_text, if_neg hg]
    split
    · left
      rfl
    · right
      exact ⟨_, rfl⟩

/-- C8 (amended): for every input string, if the output of
`clean_pdf_text` (no header/footer given) is non-empty then it has no
leading or trailing whitespace (it equals its own `strip()`) and contains
no run of two or more identical punctuation marks *from the collapsed set*
`.,!?:;、。` — runs of other punctuation characters, such as brackets, may
remain. -/
theorem clean_pdf_text_output_normalized (text : String)
    (h : clean_pdf_text text none none ≠ "") :
    pyStrip (clean_pdf_text text none none) = clean_pdf_text text none none ∧
      hasDoubleRun punctRepeat (clean_pdf_text text none none).data = false := by
  rcases clean_pdf_text_cases text none none with he | ⟨s, hs⟩
  · exact absurd he h
  · rw [hs]
    exact ⟨normalize_strip_fix s, normalize_no_double s⟩

/-- Witness for C8 at input `"ab."`: the output `"ab."` is non-empty,
stripped, and has no collapsed-set double run. -/
theorem clean_pdf_text_output_normalized_witness :
    pyStrip (clean_pdf_text "ab." none none) = clean_pdf_text "ab." none none ∧
      hasDoubleRun punctRepeat (clean_pdf_text "ab." none none).data = false :=
  clean_pdf_text_output_normalized "ab." (by decide)
